import Mathlib

/-!
Verification of the Ollama-GPT proxy (`OllamaGPT.go`).

Strings from the Go source are modelled as `List Char` (Go iterates runes
with `range` and slices bytes with `s[i:j]`; byte lengths are recovered with
an explicit UTF-8 width function).  Roles and a few fixed labels stay as
Lean `String`s since only equality on them is ever used.
-/

/-- UTF-8 byte width of one rune, so that Go's `len(s)` (a byte count) can be
computed from a rune list. -/
def byteLen (c : Char) : Nat :=
  if c.toNat < 0x80 then 1
  else if c.toNat < 0x800 then 2
  else if c.toNat < 0x10000 then 3
  else 4

/-- Go `len(s)` on a string modelled as its rune list. -/
def strLen (s : List Char) : Nat := (s.map byteLen).sum

/-- The `msg` struct of the Go source: `{Role, Content}`. -/
structure Msg where
  role : String
  content : List Char
deriving DecidableEq, Repr

/-- `len(m.Content)` for one message. -/
def msgLen (m : Msg) : Nat := strLen m.content

/-- `totalLength` as computed in `hChat` and in `circumsizeM`:
the sum of `len(m.Content)` over the messages. -/
def totalLen (ms : List Msg) : Nat := (ms.map msgLen).sum

/-- The greedy keep loop of `circumsizeM`, embedded over the reversed
message list (the Go loop runs `i` from `len(messages)-1` down to `0`,
prepending each kept message and `break`ing at the first non-system
message that would overflow the budget).  The argument list is the
original messages reversed, `cur` is `currentLength`. -/
def keepRecent (budget : Nat) : List Msg → Nat → List Msg
  | [], _ => []
  | m :: rest, cur =>
    if m.role = "system" then keepRecent budget rest cur
    else if cur + msgLen m ≤ budget then keepRecent budget rest (cur + msgLen m) ++ [m]
    else []

/-- `circumsizeM(messages, maxLength)` from the Go source: identity on the
empty list and on sequences already within budget; otherwise all system
messages (original order) followed by the greedily kept recent non-system
messages (original order). -/
def circumsizeM (messages : List Msg) (maxLength : Nat) : List Msg :=
  if messages = [] then messages
  else if totalLen messages ≤ maxLength then messages
  else
    (messages.filter (fun m => m.role = "system")) ++ keepRecent maxLength messages.reverse 0

example :
    circumsizeM [⟨"system", "aaaaa".data⟩, ⟨"user", "bbbbbbbb".data⟩, ⟨"user", "cccccccc".data⟩] 10
      = [⟨"system", "aaaaa".data⟩, ⟨"user", "cccccccc".data⟩] := by decide

example :
    circumsizeM [⟨"user", "ab".data⟩, ⟨"user", "cd".data⟩] 10
      = [⟨"user", "ab".data⟩, ⟨"user", "cd".data⟩] := by decide

example :
    circumsizeM [⟨"system", "ss".data⟩, ⟨"user", "aaaa".data⟩, ⟨"user", "bb".data⟩] 3
      = [⟨"system", "ss".data⟩, ⟨"user", "bb".data⟩] := by decide

theorem totalLen_append (l1 l2 : List Msg) :
    totalLen (l1 ++ l2) = totalLen l1 + totalLen l2 := by
  simp [totalLen]

theorem totalLen_cons (m : Msg) (l : List Msg) :
    totalLen (m :: l) = msgLen m + totalLen l := by
  simp [totalLen]

theorem totalLen_reverse (l : List Msg) : totalLen l.reverse = totalLen l := by
  simp [totalLen, List.sum_reverse]

theorem totalLen_sublist {l1 l2 : List Msg} (h : List.Sublist l1 l2) :
    totalLen l1 ≤ totalLen l2 :=
  List.Sublist.sum_le_sum (List.Sublist.map msgLen h) (by simp)

/-- Messages kept by the greedy loop are never system messages (the loop
`continue`s over them). -/
theorem keepRecent_role (b : Nat) (l : List Msg) :
    ∀ (cur : Nat) (m : Msg), m ∈ keepRecent b l cur → ¬ m.role = "system" := by
  induction l with
  | nil => intro cur m h; simp [keepRecent] at h
  | cons x rest ih =>
    intro cur m h
    by_cases hx : x.role = "system"
    · rw [keepRecent, if_pos hx] at h
      exact ih cur m h
    · rw [keepRecent, if_neg hx] at h
      by_cases hfit : cur + msgLen x ≤ b
      · rw [if_pos hfit] at h
        rcases List.mem_append.mp h with h1 | h2
        · exact ih _ m h1
        · simp only [List.mem_singleton] at h2
          subst h2; exact hx
      · rw [if_neg hfit] at h
        simp at h

/-- The greedy loop keeps the running total within the budget: starting from
`cur ≤ b`, the kept messages add at most `b - cur` characters. -/
theorem keepRecent_sum (b : Nat) (l : List Msg) :
    ∀ cur, cur ≤ b → cur + totalLen (keepRecent b l cur) ≤ b := by
  induction l with
  | nil => intro cur hcur; simpa [keepRecent, totalLen] using hcur
  | cons x rest ih =>
    intro cur hcur
    by_cases hx : x.role = "system"
    · rw [keepRecent, if_pos hx]
      exact ih cur hcur
    · rw [keepRecent, if_neg hx]
      by_cases hfit : cur + msgLen x ≤ b
      · rw [if_pos hfit, totalLen_append, totalLen_cons]
        have := ih (cur + msgLen x) hfit
        simp [totalLen] at this ⊢
        omega
      · rw [if_neg hfit]
        simpa [totalLen] using hcur

/-- On a list of system messages the greedy loop keeps nothing. -/
theorem keepRecent_system_nil (b : Nat) (l : List Msg)
    (h : ∀ m ∈ l, m.role = "system") : ∀ cur, keepRecent b l cur = [] := by
  induction l with
  | nil => intro cur; rfl
  | cons x rest ih =>
    intro cur
    have hx : x.role = "system" := h x (by simp)
    rw [keepRecent, if_pos hx]
    exact ih (fun m hm => h m (by simp [hm])) cur

/-- When every non-system message fits within the budget, the greedy loop
keeps all of them (in reverse of the traversal order) and ignores the
trailing system messages. -/
theorem keepRecent_append_fits (b : Nat) (u : List Msg) :
    ∀ (s : List Msg) (cur : Nat),
      (∀ m ∈ u, ¬ m.role = "system") → (∀ m ∈ s, m.role = "system") →
      cur + totalLen u ≤ b → keepRecent b (u ++ s) cur = u.reverse := by
  induction u with
  | nil =>
    intro s cur _ hs _
    simpa using keepRecent_system_nil b s hs cur
  | cons x u' ih =>
    intro s cur hu hs hsum
    have hx : ¬ x.role = "system" := hu x (by simp)
    have hfit : cur + msgLen x ≤ b := by
      rw [totalLen_cons] at hsum; omega
    rw [List.cons_append, keepRecent, if_neg hx, if_pos hfit]
    have hsum' : (cur + msgLen x) + totalLen u' ≤ b := by
      rw [totalLen_cons] at hsum; omega
    rw [ih s (cur + msgLen x) (fun m hm => hu m (by simp [hm])) hs hsum']
    simp

theorem filter_system_of_parts {S K : List Msg}
    (hS : ∀ m ∈ S, m.role = "system") (hK : ∀ m ∈ K, ¬ m.role = "system") :
    (S ++ K).filter (fun m => m.role = "system") = S := by
  rw [List.filter_append]
  have h1 : S.filter (fun m => m.role = "system") = S :=
    List.filter_eq_self.mpr (fun m hm => by simp [hS m hm])
  have h2 : K.filter (fun m => m.role = "system") = [] := by
    rw [List.filter_eq_nil_iff]
    intro m hm
    simp [hK m hm]
  rw [h1, h2, List.append_nil]

theorem circumsizeM_over {ms : List Msg} {b : Nat} (hnil : ¬ ms = [])
    (hgt : ¬ totalLen ms ≤ b) :
    circumsizeM ms b
      = (ms.filter (fun m => m.role = "system")) ++ keepRecent b ms.reverse 0 := by
  rw [circumsizeM, if_neg hnil, if_neg hgt]

/-- C1: every pinned (system-role) message of the input survives
`circumsizeM`, for every message sequence and every budget. -/
theorem circumsizeM_keeps_pinned (ms : List Msg) (b : Nat) (m : Msg)
    (hmem : m ∈ ms) (hrole : m.role = "system") : m ∈ circumsizeM ms b := by
  by_cases hnil : ms = []
  · subst hnil; simp at hmem
  · by_cases hle : totalLen ms ≤ b
    · rw [circumsizeM, if_neg hnil, if_pos hle]; exact hmem
    · rw [circumsizeM_over hnil hle]
      exact List.mem_append_left _ (List.mem_filter.mpr ⟨hmem, by simp [hrole]⟩)

theorem circumsizeM_keeps_pinned_witness :
    (⟨"system", "s".data⟩ : Msg) ∈ [(⟨"system", "s".data⟩ : Msg), ⟨"user", "abc".data⟩]
      ∧ (⟨"system", "s".data⟩ : Msg).role = "system"
      ∧ (⟨"system", "s".data⟩ : Msg)
          ∈ circumsizeM [(⟨"system", "s".data⟩ : Msg), ⟨"user", "abc".data⟩] 2 :=
  ⟨by decide, by decide,
    circumsizeM_keeps_pinned _ 2 _ (by decide) (by decide)⟩

/-- C2 fails as stated: with budget 10 and input
`[system "aaaaa", user "bbbbbbbb", user "cccccccc"]` (total 21 > 10), the
pinned content alone is 5 ≤ 10, yet the output
`[system "aaaaa", user "cccccccc"]` has total length 13 > 10 — the greedy
loop charges only non-pinned content against the budget, so pinned
messages can push the output over budget even when they fit by themselves. -/
theorem circumsizeM_budget_counterexample :
    ([(⟨"system", "aaaaa".data⟩ : Msg), ⟨"user", "bbbbbbbb".data⟩,
        ⟨"user", "cccccccc".data⟩] ≠ [])
    ∧ totalLen [(⟨"system", "aaaaa".data⟩ : Msg), ⟨"user", "bbbbbbbb".data⟩,
        ⟨"user", "cccccccc".data⟩] > 10
    ∧ totalLen (([(⟨"system", "aaaaa".data⟩ : Msg), ⟨"user", "bbbbbbbb".data⟩,
        ⟨"user", "cccccccc".data⟩]).filter (fun m => m.role = "system")) ≤ 10
    ∧ totalLen (circumsizeM [(⟨"system", "aaaaa".data⟩ : Msg),
        ⟨"user", "bbbbbbbb".data⟩, ⟨"user", "cccccccc".data⟩] 10) > 10 := by
  decide

/-- C2 amended: the budget bounds only the non-pinned part of the output —
for every message sequence and budget, the total content length of the
non-system messages in `circumsizeM`'s output is at most the budget
whenever the input exceeds the budget (pinned content is not counted, so
the whole output may exceed the budget whenever pinned messages are
present, even when the pinned messages alone fit). -/
theorem circumsizeM_nonpinned_within_budget (ms : List Msg) (b : Nat)
    (hgt : totalLen ms > b) :
    totalLen ((circumsizeM ms b).filter (fun m => ¬ m.role = "system")) ≤ b := by
  by_cases hnil : ms = []
  · subst hnil; simp [totalLen] at hgt
  · have hle : ¬ totalLen ms ≤ b := by omega
    rw [circumsizeM_over hnil hle, List.filter_append]
    have h1 : (ms.filter (fun m => m.role = "system")).filter
        (fun m => ¬ m.role = "system") = [] := by
      rw [List.filter_eq_nil_iff]
      intro m hm
      have := (List.mem_filter.mp hm).2
      simp at this ⊢
      exact this
    have h2 : (keepRecent b ms.reverse 0).filter (fun m => ¬ m.role = "system")
        = keepRecent b ms.reverse 0 :=
      List.filter_eq_self.mpr (fun m hm => by simp [keepRecent_role b ms.reverse 0 m hm])
    rw [h1, h2, List.nil_append]
    have := keepRecent_sum b ms.reverse 0 (Nat.zero_le b)
    omega

theorem circumsizeM_nonpinned_within_budget_witness :
    totalLen [(⟨"system", "aaaaa".data⟩ : Msg), ⟨"user", "bbbbbbbb".data⟩,
        ⟨"user", "cccccccc".data⟩] > 10
    ∧ totalLen ((circumsizeM [(⟨"system", "aaaaa".data⟩ : Msg),
        ⟨"user", "bbbbbbbb".data⟩, ⟨"user", "cccccccc".data⟩] 10).filter
          (fun m => ¬ m.role = "system")) ≤ 10 :=
  ⟨by decide, circumsizeM_nonpinned_within_budget _ 10 (by decide)⟩

/-- C9: `circumsizeM` is idempotent — truncating an already truncated
sequence with the same budget changes nothing. -/
theorem circumsizeM_idem (ms : List Msg) (b : Nat) :
    circumsizeM (circumsizeM ms b) b = circumsizeM ms b := by
  by_cases hnil : ms = []
  · subst hnil; simp [circumsizeM]
  · by_cases hle : totalLen ms ≤ b
    · have hid : circumsizeM ms b = ms := by
        rw [circumsizeM, if_neg hnil, if_pos hle]
      rw [hid, circumsizeM, if_neg hnil, if_pos hle]
    · rw [circumsizeM_over hnil hle]
      have hSsys : ∀ m ∈ ms.filter (fun m => m.role = "system"), m.role = "system" := by
        intro m hm
        have := (List.mem_filter.mp hm).2
        simpa using this
      have hKsys : ∀ m ∈ keepRecent b ms.reverse 0, ¬ m.role = "system" :=
        fun m hm => keepRecent_role b ms.reverse 0 m hm
      by_cases h2nil :
          ms.filter (fun m => m.role = "system") ++ keepRecent b ms.reverse 0 = []
      · rw [circumsizeM, if_pos h2nil]
      · by_cases h2le :
            totalLen (ms.filter (fun m => m.role = "system")
              ++ keepRecent b ms.reverse 0) ≤ b
        · rw [circumsizeM, if_neg h2nil, if_pos h2le]
        · rw [circumsizeM_over h2nil h2le]
          rw [filter_system_of_parts hSsys hKsys]
          congr 1
          rw [List.reverse_append]
          have hsum : 0 + totalLen (keepRecent b ms.reverse 0).reverse ≤ b := by
            rw [totalLen_reverse]
            exact keepRecent_sum b ms.reverse 0 (Nat.zero_le b)
          rw [keepRecent_append_fits b (keepRecent b ms.reverse 0).reverse
            (ms.filter (fun m => m.role = "system")).reverse 0
            (fun m hm => hKsys m (List.mem_reverse.mp hm))
            (fun m hm => hSsys m (List.mem_reverse.mp hm)) hsum]
          exact List.reverse_reverse _

/-- Go `strings.Contains(s, pat)`: `pat` occurs as a contiguous run in `s`.
For the all-ASCII patterns used in the source, byte-level and rune-level
containment coincide. -/
def containsStr (pat : List Char) : List Char → Bool
  | [] => pat.isPrefixOf []
  | c :: rest => pat.isPrefixOf (c :: rest) || containsStr pat rest

/-- The spam-guard test `strings.Contains(content, "### Task:")`. -/
def hasMarker (s : List Char) : Bool := containsStr "### Task:".data s

/-- Model-name base extraction from `hChat`: `strings.HasSuffix(model,
":latest")` followed by `strings.TrimSuffix(model, ":latest")` (dropping
the 7-byte suffix). -/
def stripLatest (model : List Char) : List Char :=
  if (":latest".data).isSuffixOf model then model.take (model.length - 7) else model

/-- The five upstream routes chosen by the `switch baseModel` in `hChat`. -/
inductive Route where
  | chat | dalle | b64 | tts | fallback
deriving DecidableEq, Repr

/-- The `switch baseModel` of `hChat`: five chat identifiers share the v2
chat route, three media identifiers get their own routes, everything else
falls back to the v1 legacy chat route. -/
def routeOf (base : List Char) : Route :=
  if base = "gpt-4o".data ∨ base = "gpt-4o-mini".data ∨ base = "gpt-4.1-nano".data
      ∨ base = "gpt-4.1-mini".data ∨ base = "gpt-4.1".data then Route.chat
  else if base = "dall-e-3".data then Route.dalle
  else if base = "base64".data then Route.b64
  else if base = "tts".data then Route.tts
  else Route.fallback

/-- The closed set of base identifiers named by the spec. -/
def closedModelSet : List (List Char) :=
  ["gpt-4o".data, "gpt-4o-mini".data, "gpt-4.1-nano".data, "gpt-4.1-mini".data,
    "gpt-4.1".data, "dall-e-3".data, "base64".data, "tts".data]

/-- The media routes read only the most recent message:
`prompt := ""` then `if len(req.Messages) > 0 { prompt = last.Content }`. -/
def lastPrompt (ms : List Msg) : List Char :=
  match ms.getLast? with
  | some m => m.content
  | none => []

/-- The guard outcomes before any upstream call is made:
a spam-guard rejection, a too-long rejection naming the route limit, or a
hand-off of the (possibly trimmed) messages to the upstream call. -/
inductive PreOutcome where
  | blockedSpam
  | blockedTooLong (limit : Nat)
  | forward (msgs : List Msg)
deriving DecidableEq, Repr

/-- The pre-upstream guard phase of `hChat` per route: spam check first,
then the route's length guard (aggregate for the chat routes with the
dementia-mode trim, last-message for the media routes). -/
def preProcess (dementia : Option Bool) (model : List Char) (msgs : List Msg) :
    PreOutcome :=
  match routeOf (stripLatest model) with
  | Route.chat =>
    if msgs.any (fun m => hasMarker m.content) then PreOutcome.blockedSpam
    else if totalLen msgs > 8000 then
      if dementia = some true then PreOutcome.forward (circumsizeM msgs 8000)
      else PreOutcome.blockedTooLong 8000
    else PreOutcome.forward msgs
  | Route.dalle =>
    if hasMarker (lastPrompt msgs) then PreOutcome.blockedSpam
    else if strLen (lastPrompt msgs) > 1000 then PreOutcome.blockedTooLong 1000
    else PreOutcome.forward msgs
  | Route.b64 =>
    if hasMarker (lastPrompt msgs) then PreOutcome.blockedSpam
    else if strLen (lastPrompt msgs) > 1000 then PreOutcome.blockedTooLong 1000
    else PreOutcome.forward msgs
  | Route.tts =>
    if hasMarker (lastPrompt msgs) then PreOutcome.blockedSpam
    else if strLen (lastPrompt msgs) > 500 then PreOutcome.blockedTooLong 500
    else PreOutcome.forward msgs
  | Route.fallback =>
    if msgs.any (fun m => hasMarker m.content) then PreOutcome.blockedSpam
    else if totalLen msgs > 2000 then
      if dementia = some true then PreOutcome.forward (circumsizeM msgs 2000)
      else PreOutcome.blockedTooLong 2000
    else PreOutcome.forward msgs

example : preProcess none "gpt-4o".data [⟨"user", "x ### Task: y".data⟩]
    = PreOutcome.blockedSpam := by decide

example : preProcess none "gpt-4o:latest".data [⟨"user", "hi".data⟩]
    = PreOutcome.forward [⟨"user", "hi".data⟩] := by decide

/-- C3 fails as stated: on the `dall-e-3` route the spam marker is looked
for only in the most recent message, so a request whose earlier message
contains `"### Task:"` is not blocked and is forwarded upstream. -/
theorem spam_guard_counterexample :
    (([(⟨"user", "### Task: x".data⟩ : Msg), ⟨"user", "hello".data⟩]).any
        (fun m => hasMarker m.content) = true)
    ∧ preProcess none "dall-e-3".data
        [(⟨"user", "### Task: x".data⟩ : Msg), ⟨"user", "hello".data⟩]
      = PreOutcome.forward
          [(⟨"user", "### Task: x".data⟩ : Msg), ⟨"user", "hello".data⟩] := by
  decide

/-- C3 amended: the spam guard rejects before any upstream call, but its
scope is per-route — on the two chat routes it scans every message's
content for the marker, while on the image and audio routes it checks only
the most recent message's content. -/
theorem spam_guard_spec (dem : Option Bool) (model : List Char) (msgs : List Msg) :
    preProcess dem model msgs = PreOutcome.blockedSpam ↔
      (((routeOf (stripLatest model) = Route.chat
            ∨ routeOf (stripLatest model) = Route.fallback)
          ∧ msgs.any (fun m => hasMarker m.content) = true)
        ∨ ((routeOf (stripLatest model) = Route.dalle
            ∨ routeOf (stripLatest model) = Route.b64
            ∨ routeOf (stripLatest model) = Route.tts)
          ∧ hasMarker (lastPrompt msgs) = true)) := by
  rcases hr : routeOf (stripLatest model) with _ | _ | _ | _ | _ <;>
    simp only [preProcess, hr] <;> split_ifs <;> simp_all

theorem spam_guard_spec_witness :
    preProcess none "tts".data [(⟨"user", "### Task: z".data⟩ : Msg)]
      = PreOutcome.blockedSpam :=
  (spam_guard_spec none "tts".data [(⟨"user", "### Task: z".data⟩ : Msg)]).mpr
    (Or.inr ⟨Or.inr (Or.inr (by decide)), by decide⟩)

/-- The streaming-mode decision in `hChat`: `stream := req.Stream`, then
the global override replaces it when set, and otherwise `stream = true`
is forced. -/
def decideStream (streamOverride : Option Bool) (reqStream : Bool) : Bool :=
  match streamOverride with
  | some b => b
  | none => true

/-- C5 fails as stated: with the session toggle unset and the per-request
flag `false`, the handler still streams — the per-request flag never
governs the mode. -/
theorem decideStream_counterexample :
    decideStream none false = true ∧ ¬ decideStream none false = false := by
  decide

/-- C5 amended: the streaming mode is the session toggle's value when the
toggle is set, and is always `true` when the toggle is unset; the
per-request stream flag is ignored in both cases. -/
theorem decideStream_spec :
    (∀ r : Bool, decideStream none r = true)
    ∧ (∀ (b r : Bool), decideStream (some b) r = b) := by
  exact ⟨fun _ => rfl, fun _ _ => rfl⟩

/-- C6: the router strips one trailing `":latest"` suffix, maps each of the
eight closed-set base identifiers to its route by exact match, sends every
base identifier outside the closed set to the fallback legacy chat route,
and in particular resolves `"unknown-model:latest"` to the fallback route. -/
theorem routing_spec :
    (∀ s : List Char, stripLatest (s ++ ":latest".data) = s)
    ∧ routeOf "gpt-4o".data = Route.chat
    ∧ routeOf "gpt-4o-mini".data = Route.chat
    ∧ routeOf "gpt-4.1-nano".data = Route.chat
    ∧ routeOf "gpt-4.1-mini".data = Route.chat
    ∧ routeOf "gpt-4.1".data = Route.chat
    ∧ routeOf "dall-e-3".data = Route.dalle
    ∧ routeOf "base64".data = Route.b64
    ∧ routeOf "tts".data = Route.tts
    ∧ (∀ base : List Char, base ∉ closedModelSet → routeOf base = Route.fallback)
    ∧ routeOf (stripLatest "unknown-model:latest".data) = Route.fallback := by
  refine ⟨?_, by decide, by decide, by decide, by decide, by decide, by decide,
    by decide, by decide, ?_, by decide⟩
  · intro s
    have h1 : List.isSuffixOf (":latest".data) (s ++ ":latest".data) = true := by
      simp [List.isSuffixOf]
    have h2 : (s ++ ":latest".data).length - 7 = s.length := by
      simp [List.length_append]
    rw [stripLatest, if_pos h1, h2, List.take_left]
  · intro base hb
    simp only [closedModelSet, List.mem_cons, List.not_mem_nil, or_false,
      not_or] at hb
    obtain ⟨h1, h2, h3, h4, h5, h6, h7, h8⟩ := hb
    rw [routeOf, if_neg (by tauto), if_neg h6, if_neg h7, if_neg h8]

theorem routing_spec_witness :
    stripLatest ("my-model".data ++ ":latest".data) = "my-model".data
    ∧ routeOf "unknown-model".data = Route.fallback :=
  ⟨routing_spec.1 "my-model".data,
    routing_spec.2.2.2.2.2.2.2.2.2.1 "unknown-model".data (by decide)⟩

/-- The raw-string marker `{"reply":"<!DOCTYPE html>\` tested by
`strings.HasPrefix` on the upstream body (the trailing character is a
single backslash). -/
def htmlMarker : List Char := "\x7b\"reply\":\"<!DOCTYPE html>\\".data

/-- The HTML / Cloudflare-block detection on the upstream body. -/
def isHtmlBlocked (body : List Char) : Bool :=
  htmlMarker.isPrefixOf body || ("<html>".data).isPrefixOf body

/-- The rate-limit marker phrase `"Too many requests ("` (with its
surrounding double quotes) searched in the upstream body. -/
def rateMarker : List Char := "\"Too many requests (\"".data

def hasRateMarker (body : List Char) : Bool := containsStr rateMarker body

/-- Fixed advisory text of the HTML-blocked reply frame. -/
def blockedText : List Char :=
  "Response was blocked please try again in a minute...".data

/-- Fixed advisory text of the rate-limited reply frame. -/
def rateText : List Char :=
  ("Too many requests please wait a min... "
    ++ "(contact atticus if you think higher request limits should be set)").data

/-- What `hChat` does with the upstream status and body before the
streaming mode is even consulted: substitute a single terminal advisory
frame (HTTP 200, `done=true`) or hand the body on to the emitter. -/
inductive UpstreamOutcome where
  | advisory (text : List Char)
  | proceed (body : List Char)
deriving DecidableEq, Repr

/-- The error/backpressure translation of `hChat`, in source order: the
HTML-blocked check first, then the 429-or-marker rate-limit check, else
pass the body through. -/
def classifyUpstream (status : Nat) (body : List Char) : UpstreamOutcome :=
  if isHtmlBlocked body then UpstreamOutcome.advisory blockedText
  else if status == 429 || hasRateMarker body then UpstreamOutcome.advisory rateText
  else UpstreamOutcome.proceed body

/-- C7 fails as stated: a 429 upstream status whose body is an HTML page
is classified by the earlier HTML-blocked check, so the emitted terminal
frame carries the blocked advisory text, not the rate-limit advisory
text. -/
theorem rate_limit_counterexample :
    classifyUpstream 429 "<html>rate limited".data
      = UpstreamOutcome.advisory blockedText
    ∧ ¬ blockedText = rateText := by
  decide

/-- C7 amended: whenever the body is not classified as HTML-blocked first,
an upstream 429 status or a body containing the rate-limit marker yields
the single terminal rate-limit advisory frame (emitted at HTTP 200 with
`done=true`, before the streaming mode is consulted, never forwarding the
body). -/
theorem rate_limit_spec (status : Nat) (body : List Char)
    (hhtml : isHtmlBlocked body = false)
    (h : status = 429 ∨ hasRateMarker body = true) :
    classifyUpstream status body = UpstreamOutcome.advisory rateText := by
  rcases h with h | h <;> simp [classifyUpstream, hhtml, h]

theorem rate_limit_spec_witness :
    isHtmlBlocked "ok body".data = false
    ∧ classifyUpstream 429 "ok body".data = UpstreamOutcome.advisory rateText :=
  ⟨by decide, rate_limit_spec 429 "ok body".data (by decide) (Or.inl rfl)⟩

/-- The streamed-reply scrub of `hChat`: first
`strings.ReplaceAll(reply, "\n", "")`, then a rune filter keeping
printable ASCII (0x20 to 0x7E), tab, and every rune at or above 0x80. -/
def scrub (reply : List Char) : List Char :=
  (reply.filter (fun c => ¬ c = '\n')).filter
    (fun c => (0x20 ≤ c.toNat ∧ c.toNat ≤ 0x7E) ∨ c.toNat = 0x09 ∨ 0x80 ≤ c.toNat)

/-- UTF-8 encoding of one rune, recovering the Go byte-level view of the
scrubbed reply (`reply[i:end]` slices bytes). -/
def utf8Bytes (c : Char) : List Nat :=
  let n := c.toNat
  if n < 0x80 then [n]
  else if n < 0x800 then [0xC0 + n / 0x40, 0x80 + n % 0x40]
  else if n < 0x10000 then
    [0xE0 + n / 0x1000, 0x80 + n / 0x40 % 0x40, 0x80 + n % 0x40]
  else
    [0xF0 + n / 0x40000, 0x80 + n / 0x1000 % 0x40, 0x80 + n / 0x40 % 0x40,
      0x80 + n % 0x40]

/-- UTF-8 bytes of a rune list. -/
def utf8 (s : List Char) : List Nat := s.flatMap utf8Bytes

/-- Fueled chunking: structurally recursive on the fuel so that concrete
instances reduce; the fuel is instantiated with the list length. -/
def chunksOfAux (n : Nat) : Nat → List α → List (List α)
  | _, [] => []
  | 0, l => [l]
  | fuel + 1, x :: xs => (x :: xs.take (n - 1)) :: chunksOfAux n fuel (xs.drop (n - 1))

/-- The chunking loop `for i := 0; i < len(reply); i += chunkSize`:
consecutive slices of at most `n` elements. -/
def chunksOf (n : Nat) (l : List α) : List (List α) := chunksOfAux n l.length l

theorem chunksOfAux_flatten (n : Nat) :
    ∀ (fuel : Nat) (l : List α), l.length ≤ fuel → (chunksOfAux n fuel l).flatten = l := by
  intro fuel
  induction fuel with
  | zero =>
    intro l hl
    have : l = [] := List.length_eq_zero.mp (Nat.le_zero.mp hl)
    subst this
    rfl
  | succ f ih =>
    intro l hl
    match l with
    | [] => rfl
    | x :: xs =>
      have hxs : xs.length ≤ f := by
        simp only [List.length_cons] at hl
        omega
      rw [chunksOfAux]
      simp only [List.flatten_cons]
      rw [ih (xs.drop (n - 1)) (by simp [List.length_drop]; omega)]
      simp [List.take_append_drop]

theorem chunksOf_flatten (n : Nat) (l : List α) : (chunksOf n l).flatten = l :=
  chunksOfAux_flatten n l.length l (Nat.le_refl _)

/-- One frame of the emulated streaming protocol (chat shape). -/
structure StreamFrame where
  model : List Char
  createdAt : List Char
  role : List Char
  content : List Nat
  done : Bool
  doneReason : List Char
deriving DecidableEq, Repr

/-- An intermediate content frame: `done=false`, no done reason. -/
def chunkFrame (model t : List Char) (c : List Nat) : StreamFrame :=
  ⟨model, t, "assistant".data, c, false, []⟩

/-- The synthetic terminal frame: empty content, `done=true`,
`done_reason="stop"`. -/
def finalFrame (model t : List Char) : StreamFrame :=
  ⟨model, t, "assistant".data, [], true, "stop".data⟩

/-- The streaming branch of `hChat`: scrub the reply, slice its bytes into
chunks of 10, emit one content frame per chunk, then the terminal frame.
`t` is the `createdAt` string computed once before the loop. -/
def emitStream (model t reply : List Char) : List StreamFrame :=
  ((chunksOf 10 (utf8 (scrub reply))).map (chunkFrame model t))
    ++ [finalFrame model t]

example :
    (emitStream "m".data "t".data "hello there".data).length = 3 := by decide

/-- C8: concatenating the contents of the non-final frames of a streamed
reply reproduces the scrubbed reply exactly (as its byte sequence); exactly
one final frame is emitted, with empty content and done reason `"stop"`;
and the scrubbed reply contains no newline and no control character below
0x20 other than tab. -/
theorem stream_spec (model t reply : List Char) :
    (((emitStream model t reply).filter (fun f => f.done = false)).map
        (fun f => f.content)).flatten = utf8 (scrub reply)
    ∧ ((emitStream model t reply).filter (fun f => f.done = true)).length = 1
    ∧ (∀ f ∈ emitStream model t reply, f.done = true →
        f.content = [] ∧ f.doneReason = "stop".data)
    ∧ (∀ c ∈ scrub reply, ¬ c = '\n' ∧ (c.toNat < 0x20 → c.toNat = 0x09)) := by
  refine ⟨?_, ?_, ?_, ?_⟩
  · rw [emitStream, List.filter_append]
    have hA : ((chunksOf 10 (utf8 (scrub reply))).map (chunkFrame model t)).filter
        (fun f => f.done = false)
        = (chunksOf 10 (utf8 (scrub reply))).map (chunkFrame model t) := by
      refine List.filter_eq_self.mpr ?_
      intro f hf
      obtain ⟨c, _, rfl⟩ := List.mem_map.mp hf
      simp [chunkFrame]
    have hB : ([finalFrame model t] : List StreamFrame).filter
        (fun f => f.done = false) = [] := by
      simp [finalFrame]
    rw [hA, hB, List.append_nil, List.map_map]
    have hid : ((fun f : StreamFrame => f.content) ∘ chunkFrame model t)
        = fun c => c := rfl
    rw [hid, List.map_id', chunksOf_flatten]
  · rw [emitStream, List.filter_append]
    have hA : ((chunksOf 10 (utf8 (scrub reply))).map (chunkFrame model t)).filter
        (fun f => f.done = true) = [] := by
      rw [List.filter_eq_nil_iff]
      intro f hf
      obtain ⟨c, _, rfl⟩ := List.mem_map.mp hf
      simp [chunkFrame]
    have hB : ([finalFrame model t] : List StreamFrame).filter
        (fun f => f.done = true) = [finalFrame model t] := by
      simp [finalFrame]
    rw [hA, hB, List.nil_append, List.length_singleton]
  · intro f hf hdone
    rw [emitStream] at hf
    rcases List.mem_append.mp hf with h | h
    · obtain ⟨c, _, rfl⟩ := List.mem_map.mp h
      simp [chunkFrame] at hdone
    · simp only [List.mem_singleton] at h
      subst h
      exact ⟨rfl, rfl⟩
  · intro c hc
    rw [scrub] at hc
    have h2 := (List.mem_filter.mp hc).2
    have h1 := (List.mem_filter.mp (List.mem_filter.mp hc).1).2
    simp only [decide_eq_true_eq] at h1 h2
    refine ⟨h1, fun hlt => ?_⟩
    rcases h2 with h | h | h <;> omega

theorem stream_spec_witness :
    (((emitStream "m".data "t".data "a\nb".data).filter (fun f => f.done = false)).map
        (fun f => f.content)).flatten = utf8 (scrub "a\nb".data)
    ∧ ((emitStream "m".data "t".data "a\nb".data).filter
        (fun f => f.done = true)).length = 1
    ∧ ((finalFrame "m".data "t".data).content = []
        ∧ (finalFrame "m".data "t".data).doneReason = "stop".data) :=
  ⟨(stream_spec "m".data "t".data "a\nb".data).1,
    (stream_spec "m".data "t".data "a\nb".data).2.1,
    (stream_spec "m".data "t".data "a\nb".data).2.2.1 (finalFrame "m".data "t".data)
      (by decide) (by decide)⟩

/-- C10: every frame of one streamed response — content frames and the
terminal frame — carries the same `created_at` string `t`, the one value
computed before the loop; timestamps never advance between frames. -/
theorem createdAt_constant (model t reply : List Char) (f : StreamFrame)
    (hf : f ∈ emitStream model t reply) : f.createdAt = t := by
  rw [emitStream] at hf
  rcases List.mem_append.mp hf with h | h
  · obtain ⟨c, _, rfl⟩ := List.mem_map.mp h
    rfl
  · simp only [List.mem_singleton] at h
    subst h
    rfl

theorem createdAt_constant_witness :
    (finalFrame "m".data "t".data) ∈ emitStream "m".data "t".data "hi".data
    ∧ (finalFrame "m".data "t".data).createdAt = "t".data :=
  ⟨by decide,
    createdAt_constant "m".data "t".data "hi".data (finalFrame "m".data "t".data)
      (by decide)⟩

/-- `isChatStream` as set by the routing `switch`: `true` on the five
gpt identifiers and in the `default` (fallback) case, `false` on the
media routes. -/
def isChatStreamOf (model : List Char) : Bool :=
  match routeOf (stripLatest model) with
  | Route.chat => true
  | Route.fallback => true
  | _ => false

/-- Which emission branch the tail of `hChat` takes after a successful
normal upstream reply. -/
inductive EmitPath where
  | chatStream | dalleFrame | b64Frame | ttsFrame | rawBody
deriving DecidableEq, Repr

/-- The post-upstream dispatch of `hChat`: `if isChatStream`, then
`if model == "dall-e-3"`, `if model == "base64"`, `if model == "tts"`
(the unstripped model name, not the base identifier), else the raw body
is written through. -/
def emitPath (model : List Char) : EmitPath :=
  if isChatStreamOf model then EmitPath.chatStream
  else if model = "dall-e-3".data then EmitPath.dalleFrame
  else if model = "base64".data then EmitPath.b64Frame
  else if model = "tts".data then EmitPath.ttsFrame
  else EmitPath.rawBody

/-- One element of the `data` array of the v3 image reply. -/
structure ImgData where
  revised_prompt : List Char
  url : List Char
deriving DecidableEq, Repr

/-- The decoded v3 image reply shape. -/
structure ImgResp where
  created : Int
  data : List ImgData
  ms : Int
deriving DecidableEq, Repr

/-- `imageURL := ""` then `if len(Data) > 0 { imageURL = Data[0].URL }`. -/
def extractImageURL (r : ImgResp) : List Char :=
  match r.data with
  | [] => []
  | d :: _ => d.url

/-- The decoded v4 base64 reply shape (`output` is a nested array). -/
structure B64Resp where
  output : List (List (List Char))
  ms : Int
deriving DecidableEq, Repr

/-- `if len(Output) > 0 && len(Output[0]) > 0 { base64str = Output[0][0] }`. -/
def extractB64 (r : B64Resp) : List Char :=
  match r.output with
  | (s :: _) :: _ => s
  | _ => []

/-- The decoded v5 audio reply shape: an object with a single URL field. -/
structure TtsResp where
  url : List Char
deriving DecidableEq, Repr

/-- One frame of the emulated protocol carrying a full media payload. -/
structure MediaFrame where
  model : List Char
  createdAt : List Char
  content : List Char
  done : Bool
  doneReason : List Char
deriving DecidableEq, Repr

/-- The single terminal frame emitted on the media branches:
`done=true`, `done_reason="stop"`, content is the extracted payload. -/
def mediaFrame (model t content : List Char) : MediaFrame :=
  ⟨model, t, content, true, "stop".data⟩

/-- C4 is the intent but the code slips on `":latest"` names: the routing
`switch` strips the suffix and sends `"dall-e-3:latest"` (and the other
media names with the suffix, which is how the `/api/tags` catalog
advertises them) to the media endpoints, yet the emitter dispatch compares
the unstripped model name, so those requests fall through every media
branch and the raw upstream body is written instead of the decoded
terminal frame.  Bare media names do behave as the claim states. -/
theorem media_emitter_latest_bug :
    routeOf (stripLatest "dall-e-3:latest".data) = Route.dalle
    ∧ routeOf (stripLatest "base64:latest".data) = Route.b64
    ∧ routeOf (stripLatest "tts:latest".data) = Route.tts
    ∧ emitPath "dall-e-3".data = EmitPath.dalleFrame
    ∧ emitPath "base64".data = EmitPath.b64Frame
    ∧ emitPath "tts".data = EmitPath.ttsFrame
    ∧ emitPath "dall-e-3:latest".data = EmitPath.rawBody
    ∧ emitPath "base64:latest".data = EmitPath.rawBody
    ∧ emitPath "tts:latest".data = EmitPath.rawBody
    ∧ extractImageURL ⟨0, [⟨"rp".data, "http://img".data⟩], 0⟩ = "http://img".data
    ∧ extractB64 ⟨[["payload".data]], 0⟩ = "payload".data
    ∧ (mediaFrame "dall-e-3".data "t".data "http://img".data).done = true
    ∧ (mediaFrame "dall-e-3".data "t".data "http://img".data).content
        = "http://img".data := by
  decide
